import Mathlib

/-
Verification of the weverse archive downloader (src/download-weverse.py)
against its natural-language specification.

The Python program is shallowly embedded: pure string/format computations
become Lean functions with the same names; the stateful parts (filesystem,
network) become explicit state passing.  The filesystem is modelled as the
list of paths that exist under the destination root; the network is an
explicit environment mapping a URL to the HTTP response it would produce.
-/

namespace DW

/-- A timezone-aware instant as produced by
`datetime.strptime(s, "%Y-%m-%dT%H:%M:%S%z")`. -/
structure DateTime where
  year : Nat
  month : Nat
  day : Nat
  hour : Nat
  minute : Nat
  second : Nat
  tzNeg : Bool
  tzHour : Nat
  tzMin : Nat
deriving DecidableEq, Repr

/-- Zero-padding to two digits, as in `strftime` fields and `f"..{i:02d}.."`. -/
def pad2 (n : Nat) : String :=
  if n < 10 then "0" ++ toString n else toString n

/-- `dt.strftime("%y%m%d")`: two-digit year, month, day. -/
def dateStr (dt : DateTime) : String :=
  pad2 (dt.year % 100) ++ pad2 dt.month ++ pad2 dt.day

/-- `str(dt)` for an aware datetime with zero microseconds:
`YYYY-MM-DD HH:MM:SS+HH:MM`. -/
def tsStr (dt : DateTime) : String :=
  toString dt.year ++ "-" ++ pad2 dt.month ++ "-" ++ pad2 dt.day ++ " "
    ++ pad2 dt.hour ++ ":" ++ pad2 dt.minute ++ ":" ++ pad2 dt.second
    ++ (if dt.tzNeg then "-" else "+") ++ pad2 dt.tzHour ++ ":" ++ pad2 dt.tzMin

/-- `re.match(r".*\.(?P<ext>.+)$", url)` on a list of characters: the group
`ext` is everything after the last `.` that is followed by at least one
character; `none` when the regex does not match. -/
def extOfList : List Char → Option (List Char)
  | [] => none
  | c :: cs =>
    match extOfList cs with
    | some e => some e
    | none => if c = '.' ∧ cs ≠ [] then some cs else none

/-- Extension inference as the code performs it, on the full URL string
(lines 77-78 and 93-94 of src/download-weverse.py). -/
def extOfUrl (url : String) : Option String :=
  (extOfList url.data).map fun e => String.mk e

/-- Modelled from the spec: "Extension inference takes the final
`.`-delimited suffix of the asset URL's path" — the same last-dot rule, but
applied only to the part of the URL before the query string. -/
def specPathExt (url : String) : Option String :=
  extOfUrl (String.mk (url.data.takeWhile (fun c => c ≠ '?')))

/-- One entry of `post["photos"]`. -/
structure Photo where
  orgImgUrl : String
deriving DecidableEq, Repr

/-- One entry of `post_detail["attachedVideos"]`. -/
structure Video where
  videoUrl : String
deriving DecidableEq, Repr

/-- A raw feed record after the field accesses download_post performs:
`id`, `communityUser.profileNickname`, `communityUser.profileImgPath`,
`body` (defaulted to `""`), the parsed `createdAt`, the optional `photos`
list, and whether the key `attachedVideos` is present. -/
structure Post where
  id : String
  user : String
  userImagePath : String
  body : String
  createdAt : DateTime
  photos : Option (List Photo)
  attachedVideos : Bool
deriving DecidableEq, Repr

/-- An HTTP response: status code and body bytes.  `requests`' `r.ok` is
`status < 400`. -/
structure HttpResp where
  status : Nat
  content : List Nat
deriving DecidableEq, Repr

/-- A file as written by download_media: its path, its content, and the
instant stamped as access/modification time when one was supplied. -/
structure WrittenFile where
  path : String
  content : List Nat
  stampedTime : Option Int
deriving DecidableEq, Repr

/-- `download_media(url, path, ts)` (lines 114-121): fetch the URL; on a
non-success response raise `Exception("Could not download image")`; on
success write the full body to `path` and stamp `ts` when given.  The
response the network would produce for the URL is passed explicitly. -/
def download_media (url : String) (resp : HttpResp) (path : String) (ts : Option Int) :
    Except String WrittenFile :=
  if resp.status < 400 then
    .ok ⟨path, resp.content, ts⟩
  else
    .error "Could not download image"

/-- The network environment a run sees: the response each URL produces, and
the `attachedVideos` list of the post-detail endpoint's JSON (`none` models
a missing key / undecodable body, which raises in Python). -/
structure NetEnv where
  resp : String → HttpResp
  postDetailVideos : Option (List Video)

/-- The deterministic bundle directory name
`f"{date_str}_{post_id}_{user}"` (line 64). -/
def filenameStem (p : Post) : String :=
  dateStr p.createdAt ++ "_" ++ p.id ++ "_" ++ p.user

/-- The final destination path `os.path.join(download_dir, filename_prefix)`
(line 65). -/
def dirPathOf (download_dir : String) (p : Post) : String :=
  download_dir ++ "/" ++ filenameStem p

/-- The generated text file name `f"{filename_prefix}_content.txt"`. -/
def contentFileName (stem : String) : String := stem ++ "_content.txt"

/-- The asset-download loop of download_post (lines 74-98) for one asset
kind: for each URL in order, infer the extension (an absent match raises
`AttributeError`), then fetch the asset into
`f"{stem}{tag}{i:02d}.{ext}"`.  Returns the staged file names on success
and counts the network fetches performed. -/
def fetchAssets (env : NetEnv) (stem tag : String) : Nat → List String →
    Except String (List String) × Nat
  | _, [] => (.ok [], 0)
  | i, url :: rest =>
    match extOfUrl url with
    | none => (.error "AttributeError", 0)
    | some ext =>
      let path := stem ++ tag ++ pad2 i ++ "." ++ ext
      match download_media url (env.resp url) path none with
      | .error e => (.error e, 1)
      | .ok _ =>
        match fetchAssets env stem tag (i+1) rest with
        | (.ok files, n) => (.ok (path :: files), n + 1)
        | (.error e, n) => (.error e, n + 1)

/-- The photo phase of download_post (lines 74-82): nothing when the
`photos` key is absent. -/
def photoStep (env : NetEnv) (stem : String) (p : Post) :
    Except String (List String) × Nat :=
  match p.photos with
  | some phs => fetchAssets env stem "_img" 0 (phs.map Photo.orgImgUrl)
  | none => (.ok [], 0)

/-- The video phase of download_post (lines 85-98): when `attachedVideos`
is present, one authenticated GET of the post-detail endpoint (counted as a
network call), then the video-fetch loop over the detail's list. -/
def videoStep (env : NetEnv) (stem : String) (p : Post) :
    Except String (List String) × Nat :=
  if p.attachedVideos then
    match env.postDetailVideos with
    | none => (.error "KeyError", 1)
    | some vids =>
      match fetchAssets env stem "_vid" 0 (vids.map Video.videoUrl) with
      | (r, n) => (r, n + 1)
  else (.ok [], 0)

/-- Result of one download_post call: the paths existing under the
destination root afterwards, the number of network fetches performed, and
the exception it raised, if any. -/
structure DPRes where
  fs : List String
  calls : Nat
  err : Option String
deriving DecidableEq, Repr

/-- `download_post(artist_id, download_dir, config, post)` (lines 54-111)
over the explicit filesystem `fs` (the set of paths under the destination
root).  All asset files and the content file are assembled in a private
staging directory (`tempfile.TemporaryDirectory`), which lives outside the
destination root; only after every asset succeeded is the staging directory
moved into the destination root and renamed to the final path, so `fs`
changes only in that final step.  On an exception the staging directory is
discarded and `fs` is unchanged. -/
def download_post (env : NetEnv) (artist_id download_dir : String)
    (fs : List String) (post : Post) : DPRes :=
  let stem := filenameStem post
  let dir_path := dirPathOf download_dir post
  if dir_path ∈ fs then ⟨fs, 0, none⟩
  else
    match photoStep env stem post with
    | (.error e, n1) => ⟨fs, n1, some e⟩
    | (.ok photoFiles, n1) =>
      match videoStep env stem post with
      | (.error e, n2) => ⟨fs, n1 + n2, some e⟩
      | (.ok videoFiles, n2) =>
        let files := photoFiles ++ videoFiles ++ [contentFileName stem]
        ⟨fs ++ dir_path :: files.map (fun f => dir_path ++ "/" ++ f), n1 + n2, none⟩

/-- `config["artist"].lower()`: ASCII case folding of the artist name,
character by character. -/
def lowerStr (s : String) : String := String.mk (s.data.map Char.toLower)

/-- `write_content` (lines 124-129): the three `print(..., file=f)` calls
produce the canonical URL line, the `{user} ({ts_str}):` line, and the body
line, each terminated by a newline. -/
def write_content (artist post_id user body ts_str : String) : String :=
  "https://weverse.io/" ++ lowerStr artist ++ "/artist/" ++ post_id ++ "\n"
    ++ user ++ " (" ++ ts_str ++ "):" ++ "\n"
    ++ body ++ "\n"

/-- A cookie of the Mozilla cookie-jar file. -/
structure Cookie where
  name : String
  value : String
deriving DecidableEq, Repr

/-- The header-setting loop of `init_session` (lines 40-43): the value of
the Authorization header of the returned session, or `none` when no cookie
is named `we_access_token`.  The loop `break`s at the first match. -/
def init_session : List Cookie → Option String
  | [] => none
  | c :: rest =>
    if c.name = "we_access_token" then some ("Bearer " ++ c.value)
    else init_session rest

/-- One page of the feed API's JSON: `{posts: [...], isEnded: bool,
lastId: <cursor>}`. -/
structure Page where
  posts : List Post
  isEnded : Bool
  lastId : String

/-- One page request issued by the loop: the `pageSize` and `from` cursor
interpolated into the URL (lines 184-187). -/
structure Request where
  pageSize : Int
  cursor : String
deriving DecidableEq, Repr

/-- The observable outcome of the posts loop (lines 181-200): final
filesystem, the page requests issued in order, the total number of feed
items consumed, the total number of asset/detail fetches, the exception
that aborted the loop (if any), and whether the loop reached its `break`. -/
structure RunState where
  fs : List String
  requests : List Request
  itemsProcessed : Nat
  assetCalls : Nat
  err : Option String
  halted : Bool
deriving DecidableEq, Repr

/-- `pool.map(func, posts)` (lines 195-197): every item of the page is
dispatched through download_post; the first exception, if any, is re-raised
by `map` after the page's items have been attempted. -/
def processPage (env : NetEnv) (artist_id download_dir : String) :
    List String → List Post → List String × Nat × Option String
  | fs, [] => (fs, 0, none)
  | fs, p :: rest =>
    let r := download_post env artist_id download_dir fs p
    let rec2 := processPage env artist_id download_dir r.fs rest
    (rec2.1, r.calls + rec2.2.1, match r.err with | some e => some e | none => rec2.2.2)

/-- The pageSize the loop interpolates into the URL: the current remaining
budget when one is configured, 100 otherwise (lines 184-187). -/
def pageSizeOf : Option Int → Int
  | some r => r
  | none => 100

/-- `posts_remain -= len(posts)` (lines 191-192), inactive without a
budget. -/
def budgetAfter (remain : Option Int) (n : Nat) : Option Int :=
  remain.map (fun r => r - (n : Int))

/-- The `break` condition `ended or (posts_remain is not None and
posts_remain <= 0)` (line 198), evaluated on the already-decremented
budget. -/
def stopAfter (ended : Bool) (remain' : Option Int) : Bool :=
  ended || (match remain' with | some r => decide (r ≤ 0) | none => false)

/-- Assembling one loop iteration's contribution to the run outcome: an
exception from the page's `pool.map` propagates (no further page is
fetched); otherwise the loop `break`s when the stop condition holds, else
continues with the outcome `cont` of the remaining iterations. -/
def stepResult (req : Request) (len : Nat) (pp : List String × Nat × Option String)
    (stop : Bool) (cont : RunState) : RunState :=
  match pp.2.2 with
  | some e => ⟨pp.1, [req], len, pp.2.1, some e, false⟩
  | none =>
    if stop then ⟨pp.1, [req], len, pp.2.1, none, true⟩
    else ⟨cont.fs, req :: cont.requests, len + cont.itemsProcessed,
          pp.2.1 + cont.assetCalls, cont.err, cont.halted⟩

/-- The posts `while True` loop (lines 181-200) against a scripted feed
source: the pages the server would return, in order.  Each iteration issues
one page request, decrements the budget by the number of items actually
returned, dispatches the page's items, and either aborts on an item
exception, `break`s on the stop condition, or advances the cursor to the
server-supplied `lastId`.  An exhausted script models a failing page fetch,
which is fatal to the walk. -/
def runPages (env : NetEnv) (artist_id download_dir : String) :
    List String → Option Int → String → List Page → RunState
  | fs, _, _, [] => ⟨fs, [], 0, 0, some "PageFetchError", false⟩
  | fs, remain, cursor, page :: rest =>
    let pp := processPage env artist_id download_dir fs page.posts
    let remain' := budgetAfter remain page.posts.length
    let cont := runPages env artist_id download_dir pp.1 remain' page.lastId rest
    stepResult ⟨pageSizeOf remain, cursor⟩ page.posts.length pp
      (stopAfter page.isEnded remain') cont

/-- The successive budgets a walk with initial budget `b` would put into
its page requests, given the per-page item counts. -/
def runningBudget (b : Int) : List Nat → List Int
  | [] => []
  | n :: rest => b :: runningBudget (b - (n : Int)) rest

/-- The creation instant of the spec's end-to-end example,
`2021-05-04T10:00:00+0900`. -/
def dt0 : DateTime := ⟨2021, 5, 4, 10, 0, 0, false, 9, 0⟩

/-- A minimal well-formed feed item with only a text body. -/
def simplePost (n : Nat) : Post := ⟨"p" ++ toString n, "Bob", "", "", dt0, none, false⟩

/-- A network in which every fetch succeeds. -/
def env0 : NetEnv := ⟨fun _ => ⟨200, []⟩, some []⟩

/-- Two feed items that agree on creation date, id and author but differ
everywhere else. -/
def postA : Post := ⟨"p1", "Bob", "ua", "hello", dt0, none, false⟩

/-- See `postA`. -/
def postB : Post := ⟨"p1", "Bob", "ub", "other text", dt0, some [], true⟩

/-- A feed item whose single photo cannot be fetched under `envFail`. -/
def badPost : Post := ⟨"bad", "Bob", "", "", dt0, some [⟨"https://x/bad.jpg"⟩], false⟩

/-- A network that fails exactly on `badPost`'s photo URL. -/
def envFail : NetEnv :=
  ⟨fun u => if u = "https://x/bad.jpg" then ⟨404, []⟩ else ⟨200, []⟩, some []⟩

/-- First page of the error-isolation scenario: a failing item followed by
a healthy sibling; the feed is not ended and a second page exists. -/
def pageC4a : Page := ⟨[badPost, simplePost 2], false, "c1"⟩

/-- Second page of the error-isolation scenario. -/
def pageC4b : Page := ⟨[simplePost 3], true, "c2"⟩

/-- The scripted source of the error-isolation scenario. -/
def scriptC4 : List Page := [pageC4a, pageC4b]

/-- Scripted source for the budget-enforcement scenario: pages of 4 items,
never ended, more pages than the walk should consume. -/
def script5 : List Page :=
  [⟨[simplePost 0, simplePost 1, simplePost 2, simplePost 3], false, "c1"⟩,
   ⟨[simplePost 4, simplePost 5, simplePost 6, simplePost 7], false, "c2"⟩,
   ⟨[simplePost 8, simplePost 9, simplePost 10, simplePost 11], false, "c3"⟩]

/-- Scripted source for the termination scenario: `isEnded=true` after 3
pages of 2 items, with a fourth page that must never be requested. -/
def script6 : List Page :=
  [⟨[simplePost 0, simplePost 1], false, "c1"⟩,
   ⟨[simplePost 2, simplePost 3], false, "c2"⟩,
   ⟨[simplePost 4, simplePost 5], true, "c3"⟩,
   ⟨[simplePost 6], false, "c4"⟩]

/-! ### Lemmas about download_post -/

theorem download_post_skip (env : NetEnv) (a d : String) (fs : List String) (p : Post)
    (h : dirPathOf d p ∈ fs) : download_post env a d fs p = ⟨fs, 0, none⟩ := by
  simp [download_post, h]

theorem download_post_err_fs (env : NetEnv) (a d : String) (fs : List String) (p : Post)
    (h : (download_post env a d fs p).err ≠ none) :
    (download_post env a d fs p).fs = fs := by
  by_cases hmem : dirPathOf d p ∈ fs
  · simp [download_post, hmem]
  · rcases h1 : photoStep env (filenameStem p) p with ⟨r1, n1⟩
    cases r1 with
    | error e => simp [download_post, hmem, h1]
    | ok pf =>
      rcases h2 : videoStep env (filenameStem p) p with ⟨r2, n2⟩
      cases r2 with
      | error e => simp [download_post, hmem, h1, h2]
      | ok vf => simp [download_post, hmem, h1, h2] at h

theorem download_post_mono (env : NetEnv) (a d : String) (fs : List String) (p : Post)
    (x : String) (h : x ∈ fs) : x ∈ (download_post env a d fs p).fs := by
  by_cases hmem : dirPathOf d p ∈ fs
  · simpa [download_post, hmem] using h
  · rcases h1 : photoStep env (filenameStem p) p with ⟨r1, n1⟩
    cases r1 with
    | error e => simpa [download_post, hmem, h1] using h
    | ok pf =>
      rcases h2 : videoStep env (filenameStem p) p with ⟨r2, n2⟩
      cases r2 with
      | error e => simpa [download_post, hmem, h1, h2] using h
      | ok vf =>
        simp only [download_post, hmem, h1, h2, if_false]
        exact List.mem_append_left _ h

theorem download_post_ok_mem (env : NetEnv) (a d : String) (fs : List String) (p : Post)
    (h : (download_post env a d fs p).err = none) :
    dirPathOf d p ∈ (download_post env a d fs p).fs := by
  by_cases hmem : dirPathOf d p ∈ fs
  · simp [download_post, hmem]
  · rcases h1 : photoStep env (filenameStem p) p with ⟨r1, n1⟩
    cases r1 with
    | error e => simp [download_post, hmem, h1] at h
    | ok pf =>
      rcases h2 : videoStep env (filenameStem p) p with ⟨r2, n2⟩
      cases r2 with
      | error e => simp [download_post, hmem, h1, h2] at h
      | ok vf =>
        simp only [download_post, hmem, h1, h2, if_false]
        exact List.mem_append_right _ (List.mem_cons_self _ _)

/-! ### Lemmas about fetchAssets -/

theorem fetchAssets_ok_mem (env : NetEnv) (stem tag : String) :
    ∀ (urls : List String) (i : Nat) (files : List String) (n : Nat),
      fetchAssets env stem tag i urls = (.ok files, n) →
      ∀ (j : Nat) (url : String), urls.get? j = some url →
        ∀ e, extOfUrl url = some e →
          (stem ++ tag ++ pad2 (i + j) ++ "." ++ e) ∈ files := by
  intro urls
  induction urls with
  | nil => intro i files n h j url hj; simp at hj
  | cons url0 rest ih =>
    intro i files n h j url hj e he
    rcases hx : extOfUrl url0 with _ | ext
    · simp [fetchAssets, hx] at h
    · by_cases hok : (env.resp url0).status < 400
      · rcases hrec : fetchAssets env stem tag (i+1) rest with ⟨r, m⟩
        cases r with
        | error e2 => simp [fetchAssets, download_media, hx, hok, hrec] at h
        | ok files' =>
          simp only [fetchAssets, download_media, hx, hok, hrec, if_pos, Prod.mk.injEq,
            Except.ok.injEq] at h
          rcases h with ⟨hfiles, -⟩
          subst hfiles
          cases j with
          | zero =>
            simp only [List.get?] at hj
            injection hj with hj'
            subst hj'
            rw [hx] at he
            injection he with he'
            subst he'
            rw [Nat.add_zero]
            exact List.mem_cons_self _ _
          | succ j' =>
            simp only [List.get?] at hj
            have hmem := ih (i+1) files' m hrec j' url hj e he
            have hidx : i + (j' + 1) = (i + 1) + j' := by omega
            rw [hidx]
            exact List.mem_cons_of_mem _ hmem
      · simp [fetchAssets, download_media, hx, hok] at h

/-! ### Characterization of the extension regex -/

theorem extOfList_some_shape : ∀ (l : List Char) (e : List Char),
    extOfList l = some e → (∃ p, l = p ++ '.' :: e) ∧ e ≠ [] := by
  intro l
  induction l with
  | nil => intro e h; cases h
  | cons c cs ih =>
    intro e h
    rcases hcs : extOfList cs with _ | e'
    · simp only [extOfList, hcs] at h
      split at h
      · next hg =>
        injection h with h'
        subst h'
        exact ⟨⟨[], by simp [hg.1]⟩, hg.2⟩
      · cases h
    · simp only [extOfList, hcs, Option.some.injEq] at h
      subst h
      obtain ⟨⟨p, hp⟩, hne⟩ := ih e' hcs
      exact ⟨⟨c :: p, by simp [hp]⟩, hne⟩

theorem extOfList_none_iff : ∀ l : List Char,
    extOfList l = none ↔ ∀ p e, l = p ++ '.' :: e → e = [] := by
  intro l
  induction l with
  | nil =>
    constructor
    · intro _ p e hp
      cases p <;> simp at hp
    · intro _; rfl
  | cons c cs ih =>
    constructor
    · intro h p e hp
      rcases hcs : extOfList cs with _ | e'
      · simp only [extOfList, hcs] at h
        cases p with
        | nil =>
          simp only [List.nil_append, List.cons.injEq] at hp
          rcases hp with ⟨rfl, rfl⟩
          by_contra hne
          rw [if_pos ⟨rfl, hne⟩] at h
          cases h
        | cons c0 p' =>
          simp only [List.cons_append, List.cons.injEq] at hp
          exact (ih.mp hcs) p' e hp.2
      · simp [extOfList, hcs] at h
    · intro h
      rcases hcs : extOfList cs with _ | e'
      · simp only [extOfList, hcs]
        split
        · next hg =>
          rcases hg with ⟨rfl, hne⟩
          exact absurd (h [] cs rfl) hne
        · rfl
      · obtain ⟨⟨p, hp⟩, hne⟩ := extOfList_some_shape cs e' hcs
        exact absurd (h (c :: p) e' (by simp [hp])) hne

theorem extOfList_append : ∀ (p e : List Char), e ≠ [] →
    (∀ q r, e = q ++ '.' :: r → r = []) → extOfList (p ++ '.' :: e) = some e := by
  intro p
  induction p with
  | nil =>
    intro e hne hcond
    have hnone : extOfList e = none := by
      rcases h : extOfList e with _ | e''
      · rfl
      · obtain ⟨⟨q, hq⟩, hne''⟩ := extOfList_some_shape e e'' h
        exact absurd (hcond q e'' hq) hne''
    simp [List.nil_append, extOfList, hnone, hne]
  | cons c p' ih =>
    intro e hne hcond
    have hrec := ih e hne hcond
    simp only [List.cons_append, extOfList, List.append_eq, hrec]

theorem extOfList_some_iff : ∀ (l e : List Char),
    extOfList l = some e ↔
      (∃ p, l = p ++ '.' :: e) ∧ e ≠ [] ∧ ∀ q r, e = q ++ '.' :: r → r = [] := by
  intro l
  induction l with
  | nil =>
    intro e
    constructor
    · intro h; cases h
    · rintro ⟨⟨p, hp⟩, -, -⟩
      cases p <;> simp at hp
  | cons c cs ih =>
    intro e
    constructor
    · intro h
      rcases hcs : extOfList cs with _ | e'
      · simp only [extOfList, hcs] at h
        split at h
        · next hg =>
          injection h with h'
          subst h'
          refine ⟨⟨[], by simp [hg.1]⟩, hg.2, ?_⟩
          intro q r hqr
          exact (extOfList_none_iff cs).mp hcs q r hqr
        · cases h
      · simp only [extOfList, hcs, Option.some.injEq] at h
        subst h
        obtain ⟨⟨p, hp⟩, hne, hcond⟩ := (ih e').mp hcs
        exact ⟨⟨c :: p, by simp [hp]⟩, hne, hcond⟩
    · rintro ⟨⟨p, hp⟩, hne, hcond⟩
      rw [hp]
      exact extOfList_append p e hne hcond

/-! ### Lemmas about processPage -/

theorem processPage_mono (env : NetEnv) (a d : String) (posts : List Post) :
    ∀ (fs : List String) (x : String), x ∈ fs → x ∈ (processPage env a d fs posts).1 := by
  induction posts with
  | nil => intro fs x h; exact h
  | cons p rest ih =>
    intro fs x h
    exact ih _ x (download_post_mono env a d fs p x h)

theorem processPage_ok_mem (env : NetEnv) (a d : String) (posts : List Post) :
    ∀ (fs : List String), (processPage env a d fs posts).2.2 = none →
      ∀ p ∈ posts, dirPathOf d p ∈ (processPage env a d fs posts).1 := by
  induction posts with
  | nil => intro fs _ p hp; cases hp
  | cons q rest ih =>
    intro fs h p hp
    have herr : (download_post env a d fs q).err = none := by
      rcases he : (download_post env a d fs q).err with _ | e
      · rfl
      · simp [processPage, he] at h
    have htail : (processPage env a d (download_post env a d fs q).fs rest).2.2 = none := by
      simpa [processPage, herr] using h
    rcases List.mem_cons.mp hp with rfl | hp
    · exact processPage_mono env a d rest _ _ (download_post_ok_mem env a d fs p herr)
    · exact ih _ htail p hp

theorem processPage_skip (env : NetEnv) (a d : String) (posts : List Post) :
    ∀ (fs : List String), (∀ p ∈ posts, dirPathOf d p ∈ fs) →
      processPage env a d fs posts = (fs, 0, none) := by
  induction posts with
  | nil => intro fs _; rfl
  | cons q rest ih =>
    intro fs h
    have hq : download_post env a d fs q = ⟨fs, 0, none⟩ :=
      download_post_skip env a d fs q (h q (List.mem_cons_self _ _))
    have hrest := ih fs (fun p hp => h p (List.mem_cons_of_mem _ hp))
    simp [processPage, hq, hrest]

/-! ### Lemmas about runPages -/

theorem runPages_mono (env : NetEnv) (a d : String) (script : List Page) :
    ∀ (fs : List String) (remain : Option Int) (cur : String) (x : String),
      x ∈ fs → x ∈ (runPages env a d fs remain cur script).fs := by
  induction script with
  | nil => intro fs remain cur x h; exact h
  | cons page rest ih =>
    intro fs remain cur x h
    have h1 : x ∈ (processPage env a d fs page.posts).1 :=
      processPage_mono env a d page.posts fs x h
    have h2 : x ∈ (runPages env a d (processPage env a d fs page.posts).1
        (budgetAfter remain page.posts.length) page.lastId rest).fs :=
      ih _ _ _ x h1
    simp only [runPages, stepResult]
    split
    · exact h1
    · split
      · exact h1
      · exact h2

theorem runPages_cons_requests_ne_nil (env : NetEnv) (a d : String)
    (fs : List String) (remain : Option Int) (cur : String) (page : Page)
    (rest : List Page) :
    (runPages env a d fs remain cur (page :: rest)).requests ≠ [] := by
  simp only [runPages, stepResult]
  split
  · simp
  · split
    · simp
    · simp

theorem runPages_nil_not_halted (env : NetEnv) (a d : String)
    (fs : List String) (remain : Option Int) (cur : String) :
    (runPages env a d fs remain cur []).halted = false := rfl

theorem runPages_cons (env : NetEnv) (a d : String) (fs : List String)
    (remain : Option Int) (cur : String) (page : Page) (rest : List Page) :
    runPages env a d fs remain cur (page :: rest) =
      stepResult ⟨pageSizeOf remain, cur⟩ page.posts.length
        (processPage env a d fs page.posts)
        (stopAfter page.isEnded (budgetAfter remain page.posts.length))
        (runPages env a d (processPage env a d fs page.posts).1
          (budgetAfter remain page.posts.length) page.lastId rest) := rfl

theorem stepResult_err (req : Request) (len : Nat)
    (pp : List String × Nat × Option String) (stop : Bool) (cont : RunState)
    (e : String) (h : pp.2.2 = some e) :
    stepResult req len pp stop cont = ⟨pp.1, [req], len, pp.2.1, some e, false⟩ := by
  simp [stepResult, h]

theorem stepResult_ok_stop (req : Request) (len : Nat)
    (pp : List String × Nat × Option String) (cont : RunState)
    (h : pp.2.2 = none) :
    stepResult req len pp true cont = ⟨pp.1, [req], len, pp.2.1, none, true⟩ := by
  simp [stepResult, h]

theorem stepResult_ok_go (req : Request) (len : Nat)
    (pp : List String × Nat × Option String) (cont : RunState)
    (h : pp.2.2 = none) :
    stepResult req len pp false cont =
      ⟨cont.fs, req :: cont.requests, len + cont.itemsProcessed,
       pp.2.1 + cont.assetCalls, cont.err, cont.halted⟩ := by
  simp [stepResult, h]

/-- Re-running the walk from any filesystem that already contains
everything the first run produced reproduces the first run's requests,
item count and halting behaviour, leaves the filesystem untouched, and
performs zero asset fetches — provided the first run raised no
exception. -/
theorem runPages_idem (env : NetEnv) (a d : String) (script : List Page) :
    ∀ (fs G : List String) (remain : Option Int) (cur : String),
      (runPages env a d fs remain cur script).err = none →
      (∀ x ∈ (runPages env a d fs remain cur script).fs, x ∈ G) →
      runPages env a d G remain cur script =
        ⟨G, (runPages env a d fs remain cur script).requests,
         (runPages env a d fs remain cur script).itemsProcessed, 0, none,
         (runPages env a d fs remain cur script).halted⟩ := by
  induction script with
  | nil => intro fs G remain cur h hG; simp [runPages] at h
  | cons page rest ih =>
    intro fs G remain cur h hG
    rcases he : (processPage env a d fs page.posts).2.2 with _ | e
    case some =>
      rw [runPages_cons, stepResult_err _ _ _ _ _ e he] at h
      cases h
    case none =>
      have hpage : ∀ p ∈ page.posts, dirPathOf d p ∈ (processPage env a d fs page.posts).1 :=
        processPage_ok_mem env a d page.posts fs he
      rcases hstop : stopAfter page.isEnded (budgetAfter remain page.posts.length) with _ | _
      case true =>
        have hfirst : runPages env a d fs remain cur (page :: rest) =
            ⟨(processPage env a d fs page.posts).1, [⟨pageSizeOf remain, cur⟩],
             page.posts.length, (processPage env a d fs page.posts).2.1, none, true⟩ := by
          rw [runPages_cons env a d fs, hstop, stepResult_ok_stop _ _ _ _ he]
        rw [hfirst] at hG
        have hskip : processPage env a d G page.posts = (G, 0, none) :=
          processPage_skip env a d page.posts G (fun p hp => hG _ (hpage p hp))
        rw [hfirst, runPages_cons env a d G, hstop, hskip, stepResult_ok_stop _ _ _ _ rfl]
      case false =>
        have hfirst : runPages env a d fs remain cur (page :: rest) =
            ⟨(runPages env a d (processPage env a d fs page.posts).1
                (budgetAfter remain page.posts.length) page.lastId rest).fs,
             ⟨pageSizeOf remain, cur⟩ :: (runPages env a d (processPage env a d fs page.posts).1
                (budgetAfter remain page.posts.length) page.lastId rest).requests,
             page.posts.length + (runPages env a d (processPage env a d fs page.posts).1
                (budgetAfter remain page.posts.length) page.lastId rest).itemsProcessed,
             (processPage env a d fs page.posts).2.1 + (runPages env a d (processPage env a d fs page.posts).1
                (budgetAfter remain page.posts.length) page.lastId rest).assetCalls,
             (runPages env a d (processPage env a d fs page.posts).1
                (budgetAfter remain page.posts.length) page.lastId rest).err,
             (runPages env a d (processPage env a d fs page.posts).1
                (budgetAfter remain page.posts.length) page.lastId rest).halted⟩ := by
          rw [runPages_cons env a d fs, hstop, stepResult_ok_go _ _ _ _ he]
        rw [hfirst] at h hG
        have hcontErr : (runPages env a d (processPage env a d fs page.posts).1
            (budgetAfter remain page.posts.length) page.lastId rest).err = none := h
        have hcontG : ∀ x ∈ (runPages env a d (processPage env a d fs page.posts).1
            (budgetAfter remain page.posts.length) page.lastId rest).fs, x ∈ G := hG
        have hskip : processPage env a d G page.posts = (G, 0, none) := by
          refine processPage_skip env a d page.posts G (fun p hp => hcontG _ ?_)
          exact runPages_mono env a d rest _ _ _ _ (hpage p hp)
        have hrest := ih (processPage env a d fs page.posts).1 G
          (budgetAfter remain page.posts.length) page.lastId hcontErr hcontG
        rw [hfirst, runPages_cons env a d G, hstop, hskip, stepResult_ok_go _ _ _ _ rfl, hrest]
        simp [hcontErr]

/-! ### Claim theorems -/

/-- Claim C5, counterexample: the code infers the extension by matching
`.*\.(?P<ext>.+)$` against the FULL URL, not against the URL's path.  For
`https://x/a.jpg?x=1` (the spec's own example, dot before the query string)
the code yields `jpg?x=1` where the final dot-suffix of the path is `jpg`;
and for a URL whose path has no dot but whose query string has one, the
code succeeds where the claimed rule fails. -/
theorem extension_query_counterexample :
    extOfUrl "https://x/a.jpg?x=1" = some "jpg?x=1"
    ∧ specPathExt "https://x/a.jpg?x=1" = some "jpg"
    ∧ ("jpg?x=1" : String) ≠ "jpg"
    ∧ extOfUrl "https://x/abc?v=1.2" = some "2"
    ∧ specPathExt "https://x/abc?v=1.2" = none :=
  ⟨by decide, by decide, by decide, by decide, by decide⟩

/-- Claim C5, amended: the inferred extension is the final `.`-delimited
suffix of the FULL asset URL (query string included): inference succeeds
exactly when the URL contains a dot followed by at least one character, in
which case it returns everything after the last such dot; a URL with no
such dot makes the extraction fail, which aborts that item in
download_post rather than falling back to a default extension. -/
theorem extension_rule :
    (∀ (url : String) (e : List Char),
      extOfList url.data = some e ↔
        (∃ p, url.data = p ++ '.' :: e) ∧ e ≠ [] ∧ ∀ q r, e = q ++ '.' :: r → r = [])
    ∧ (∀ url : String, extOfUrl url = none ↔ ∀ p e, url.data = p ++ '.' :: e → e = [])
    ∧ (∀ (url s : String), extOfUrl url = some s → ∃ p, url.data = p ++ '.' :: s.data)
    ∧ (∀ (env : NetEnv) (a d : String) (fs : List String) (p : Post) (ph : Photo)
        (tl : List Photo), p.photos = some (ph :: tl) → extOfUrl ph.orgImgUrl = none →
        dirPathOf d p ∉ fs → download_post env a d fs p = ⟨fs, 0, some "AttributeError"⟩) := by
  refine ⟨fun url e => extOfList_some_iff url.data e, fun url => ?_, fun url s h => ?_, ?_⟩
  · rw [show (extOfUrl url = none) ↔ (extOfList url.data = none) by
      simp [extOfUrl, Option.map_eq_none]]
    exact extOfList_none_iff url.data
  · rcases he : extOfList url.data with _ | e
    · simp [extOfUrl, he] at h
    · obtain ⟨⟨p, hp⟩, -⟩ := extOfList_some_shape url.data e he
      refine ⟨p, ?_⟩
      have hs : s = String.mk e := by
        simp [extOfUrl, he] at h
        exact h.symm
      rw [hs]
      exact hp
  · intro env a d fs p ph tl hphotos hx hmem
    have hps : photoStep env (filenameStem p) p = (.error "AttributeError", 0) := by
      simp [photoStep, hphotos, fetchAssets, hx]
    simp [download_post, hmem, hps]

/-- Claim C5, witness for the amended theorem: the last-dot rule evaluated
on the spec's example URL. -/
theorem extension_rule_witness :
    extOfUrl "https://x/a.jpg?x=1" = some "jpg?x=1"
    ∧ (∃ p, ("https://x/a.jpg?x=1").data = p ++ '.' :: ("jpg?x=1").data)
    ∧ download_post env0 "a" "d" [] ⟨"n", "u", "", "", dt0, some [⟨"nodots"⟩], false⟩
        = ⟨[], 0, some "AttributeError"⟩ :=
  ⟨by decide,
   extension_rule.2.2.1 "https://x/a.jpg?x=1" "jpg?x=1" (by decide),
   extension_rule.2.2.2 env0 "a" "d" [] ⟨"n", "u", "", "", dt0, some [⟨"nodots"⟩], false⟩
     ⟨"nodots"⟩ [] rfl (by decide) (by decide)⟩

/-- Claim C6, counterexample: the exception download_media raises is the
constant message `Could not download image`: two failures with different
URLs and different statuses raise the very same value, and the message
contains neither the URL nor the status, so the failure carries neither. -/
theorem download_media_error_counterexample :
    download_media "https://x/a.jpg" ⟨404, []⟩ "f" none = .error "Could not download image"
    ∧ download_media "https://y/b.png" ⟨500, []⟩ "f" none = .error "Could not download image"
    ∧ download_media "https://x/a.jpg" ⟨404, []⟩ "f" none
        = download_media "https://y/b.png" ⟨500, []⟩ "f" none
    ∧ ¬ (("https://x/a.jpg").data <:+: ("Could not download image").data)
    ∧ ¬ (("404").data <:+: ("Could not download image").data) :=
  ⟨rfl, rfl, rfl, by decide, by decide⟩

/-- Claim C6, amended: download_media fails exactly when the HTTP response
is non-success (status ≥ 400), raising the fixed message
`Could not download image`, which carries neither the URL nor the status;
on success it writes the full response body to the target path and stamps
the supplied instant (when given) as the file's access and modification
time. -/
theorem download_media_contract :
    ∀ (url : String) (resp : HttpResp) (path : String) (ts : Option Int),
      (resp.status < 400 → download_media url resp path ts = .ok ⟨path, resp.content, ts⟩)
      ∧ (¬ resp.status < 400 →
          download_media url resp path ts = .error "Could not download image") := by
  intro url resp path ts
  constructor
  · intro h; simp [download_media, h]
  · intro h; simp [download_media, h]

/-- Claim C6, witness: the contract applied to one successful and one
failing concrete fetch. -/
theorem download_media_contract_witness :
    download_media "https://x/a.jpg" ⟨200, [7, 8]⟩ "f" (some 5) = .ok ⟨"f", [7, 8], some 5⟩
    ∧ download_media "https://x/a.jpg" ⟨404, []⟩ "f" none
        = .error "Could not download image" :=
  ⟨(download_media_contract "https://x/a.jpg" ⟨200, [7, 8]⟩ "f" (some 5)).1 (by decide),
   (download_media_contract "https://x/a.jpg" ⟨404, []⟩ "f" none).2 (by decide)⟩

/-- Claim C7: the bundle directory name is a deterministic function of the
creation instant, the id and the author — two items agreeing on those
fields get the identical name and hence the identical final path — and the
name is exactly `{YYMMDD}_{id}_{author}` with the date rendered as
two-digit year, month and day of the parsed creation timestamp. -/
theorem bundle_name_deterministic :
    (∀ p q : Post, p.createdAt = q.createdAt → p.id = q.id → p.user = q.user →
      filenameStem p = filenameStem q)
    ∧ (∀ (d : String) (p q : Post), p.createdAt = q.createdAt → p.id = q.id →
        p.user = q.user → dirPathOf d p = dirPathOf d q)
    ∧ (∀ p : Post, filenameStem p =
        pad2 (p.createdAt.year % 100) ++ pad2 p.createdAt.month ++ pad2 p.createdAt.day
          ++ "_" ++ p.id ++ "_" ++ p.user) := by
  refine ⟨fun p q h1 h2 h3 => ?_, fun d p q h1 h2 h3 => ?_, fun p => rfl⟩
  · simp [filenameStem, dateStr, h1, h2, h3]
  · simp [dirPathOf, filenameStem, dateStr, h1, h2, h3]

/-- Claim C7, witness: two items differing in body, avatar and assets but
agreeing on date, id and author get the same name, and the name is the
spec's example `210504_p1_Bob`. -/
theorem bundle_name_deterministic_witness :
    filenameStem postA = filenameStem postB ∧ filenameStem postA = "210504_p1_Bob" :=
  ⟨bundle_name_deterministic.1 postA postB rfl rfl rfl, by decide⟩

/-- Claim C8, counterexample: the second line of the generated content file
is `{author} ({timestamp}):` with a trailing colon (line 127 of the
source), not `{author} ({timestamp})` as the claim states. -/
theorem content_file_colon_counterexample :
    write_content "X" "p1" "Bob" "hi" (tsStr dt0)
        ≠ "https://weverse.io/x/artist/p1" ++ "\n"
          ++ "Bob (2021-05-04 10:00:00+09:00)" ++ "\n" ++ "hi" ++ "\n"
    ∧ write_content "X" "p1" "Bob" "hi" (tsStr dt0)
        = "https://weverse.io/x/artist/p1" ++ "\n"
          ++ "Bob (2021-05-04 10:00:00+09:00):" ++ "\n" ++ "hi" ++ "\n"
    ∧ tsStr dt0 = "2021-05-04 10:00:00+09:00" :=
  ⟨by decide, by decide, by decide⟩

/-- Claim C8, amended: the generated `{prefix}_content.txt` consists of
exactly three newline-terminated lines: the canonical item URL
(`https://weverse.io/{artist-lowercased}/artist/{id}`), then
`{author} ({timestamp}):` with a trailing colon, then the body. -/
theorem content_file_three_lines :
    ∀ artist post_id user body ts_str : String,
      write_content artist post_id user body ts_str =
        ("https://weverse.io/" ++ lowerStr artist ++ "/artist/" ++ post_id) ++ "\n"
          ++ (user ++ " (" ++ ts_str ++ "):") ++ "\n" ++ (body ++ "\n") := by
  intro artist post_id user body ts_str
  simp [write_content, String.append_assoc]

/-- Claim C10: when the loaded cookie jar has no cookie named
`we_access_token`, init_session sets no Authorization header and raises no
error (the model is total); when several cookies bear that name, the first
one encountered supplies the bearer token. -/
theorem init_session_token :
    (∀ cookies : List Cookie, (∀ c ∈ cookies, c.name ≠ "we_access_token") →
      init_session cookies = none)
    ∧ (∀ (pre : List Cookie) (c : Cookie) (post : List Cookie),
        (∀ c' ∈ pre, c'.name ≠ "we_access_token") → c.name = "we_access_token" →
        init_session (pre ++ c :: post) = some ("Bearer " ++ c.value)) := by
  constructor
  · intro cookies h
    induction cookies with
    | nil => rfl
    | cons c0 rest ih =>
      have h0 := h c0 (List.mem_cons_self _ _)
      simp only [init_session, h0, if_false]
      exact ih (fun c hc => h c (List.mem_cons_of_mem _ hc))
  · intro pre c post hpre hc
    induction pre with
    | nil => simp [init_session, hc]
    | cons c0 rest ih =>
      have h0 := hpre c0 (List.mem_cons_self _ _)
      simp only [List.cons_append, init_session, h0, if_false]
      exact ih (fun c' hc' => hpre c' (List.mem_cons_of_mem _ hc'))

/-- Claim C10, witness: a jar without the token yields no header; a jar
with two `we_access_token` cookies uses the first one's value. -/
theorem init_session_token_witness :
    init_session [⟨"other", "v"⟩] = none
    ∧ init_session [⟨"other", "v"⟩, ⟨"we_access_token", "t1"⟩, ⟨"we_access_token", "t2"⟩]
        = some ("Bearer " ++ "t1") :=
  ⟨init_session_token.1 [⟨"other", "v"⟩] (by decide),
   init_session_token.2 [⟨"other", "v"⟩] ⟨"we_access_token", "t1"⟩
     [⟨"we_access_token", "t2"⟩] (by decide) rfl⟩

/-- Claim C1: a bundle's final destination path is either absent or fully
populated.  For an item whose final path does not yet exist: if download_post
raises (any asset fetch or extraction failing partway), the destination-root
filesystem is unchanged and the final path still does not exist; if it
succeeds, the final path exists and contains the content file and one asset
file per photo, all published together by the final move-and-rename. -/
theorem download_post_atomic :
    ∀ (env : NetEnv) (a d : String) (fs : List String) (p : Post),
      dirPathOf d p ∉ fs →
      ((download_post env a d fs p).err ≠ none →
        (download_post env a d fs p).fs = fs
        ∧ dirPathOf d p ∉ (download_post env a d fs p).fs)
      ∧ ((download_post env a d fs p).err = none →
        dirPathOf d p ∈ (download_post env a d fs p).fs
        ∧ (dirPathOf d p ++ "/" ++ contentFileName (filenameStem p))
            ∈ (download_post env a d fs p).fs
        ∧ ∀ phs, p.photos = some phs → ∀ j ph, phs.get? j = some ph →
            ∀ e, extOfUrl ph.orgImgUrl = some e →
              (dirPathOf d p ++ "/" ++ (filenameStem p ++ "_img" ++ pad2 j ++ "." ++ e))
                ∈ (download_post env a d fs p).fs) := by
  intro env a d fs p hmem
  constructor
  · intro herr
    have hfs := download_post_err_fs env a d fs p herr
    refine ⟨hfs, ?_⟩
    rw [hfs]
    exact hmem
  · intro herr
    rcases h1 : photoStep env (filenameStem p) p with ⟨r1, n1⟩
    cases r1 with
    | error e => simp [download_post, hmem, h1] at herr
    | ok pf =>
      rcases h2 : videoStep env (filenameStem p) p with ⟨r2, n2⟩
      cases r2 with
      | error e => simp [download_post, hmem, h1, h2] at herr
      | ok vf =>
        have hdp : download_post env a d fs p =
            ⟨fs ++ dirPathOf d p ::
              ((pf ++ vf ++ [contentFileName (filenameStem p)]).map
                fun f => dirPathOf d p ++ "/" ++ f), n1 + n2, none⟩ := by
          simp [download_post, hmem, h1, h2]
        rw [hdp]
        refine ⟨List.mem_append_right _ (List.mem_cons_self _ _), ?_, ?_⟩
        · refine List.mem_append_right _ (List.mem_cons_of_mem _ ?_)
          exact List.mem_map_of_mem _ (List.mem_append_right _ (List.mem_singleton.mpr rfl))
        · intro phs hphs j ph hj e he
          have hpf : fetchAssets env (filenameStem p) "_img" 0 (phs.map Photo.orgImgUrl)
              = (.ok pf, n1) := by
            simpa [photoStep, hphs] using h1
          have hurl : (phs.map Photo.orgImgUrl).get? j = some ph.orgImgUrl := by
            rw [List.get?_map, hj]
            rfl
          have hm := fetchAssets_ok_mem env (filenameStem p) "_img" (phs.map Photo.orgImgUrl)
            0 pf n1 hpf j ph.orgImgUrl hurl e he
          rw [Nat.zero_add] at hm
          refine List.mem_append_right _ (List.mem_cons_of_mem _ ?_)
          exact List.mem_map_of_mem _ (List.mem_append_left _ (List.mem_append_left _ hm))

/-- Claim C1, witness: with the network failing on the item's only photo,
download_post leaves the destination root untouched and the final path
absent. -/
theorem download_post_atomic_witness :
    (download_post envFail "a" "d" [] badPost).fs = []
    ∧ dirPathOf "d" badPost ∉ (download_post envFail "a" "d" [] badPost).fs :=
  (download_post_atomic envFail "a" "d" [] badPost (by decide)).1 (by decide)

/-- Claim C2: when an item's final destination path already exists,
download_post returns at once with zero network fetches and the filesystem
unchanged; consequently, re-running a whole (exception-free) feed walk from
the filesystem the first run produced reproduces the same requests, item
count and halting, leaves every bundle unchanged, and performs zero asset
fetches. -/
theorem download_post_idempotent :
    (∀ (env : NetEnv) (a d : String) (fs : List String) (p : Post),
      dirPathOf d p ∈ fs → download_post env a d fs p = ⟨fs, 0, none⟩)
    ∧ (∀ (env : NetEnv) (a d : String) (fs : List String) (remain : Option Int)
        (cur : String) (script : List Page),
        (runPages env a d fs remain cur script).err = none →
        runPages env a d (runPages env a d fs remain cur script).fs remain cur script
          = ⟨(runPages env a d fs remain cur script).fs,
             (runPages env a d fs remain cur script).requests,
             (runPages env a d fs remain cur script).itemsProcessed, 0, none,
             (runPages env a d fs remain cur script).halted⟩) := by
  refine ⟨download_post_skip, fun env a d fs remain cur script h => ?_⟩
  exact runPages_idem env a d script fs _ remain cur h (fun x hx => hx)

/-- Claim C2, witness: skipping a materialized item is a no-op with zero
fetches, and re-running the three-page walk from its own output changes
nothing and fetches no asset. -/
theorem download_post_idempotent_witness :
    download_post env0 "a" "d" [dirPathOf "d" postA] postA
      = ⟨[dirPathOf "d" postA], 0, none⟩
    ∧ runPages env0 "a" "d" (runPages env0 "a" "d" [] none "" script6).fs none "" script6
        = ⟨(runPages env0 "a" "d" [] none "" script6).fs,
           (runPages env0 "a" "d" [] none "" script6).requests,
           (runPages env0 "a" "d" [] none "" script6).itemsProcessed, 0, none,
           (runPages env0 "a" "d" [] none "" script6).halted⟩ :=
  ⟨download_post_idempotent.1 env0 "a" "d" [dirPathOf "d" postA] postA (by decide),
   download_post_idempotent.2 env0 "a" "d" [] none "" script6 (by decide)⟩

/-- Claim C3: on each step the remaining budget is decremented by the
number of items actually returned and the walk stops fetching exactly when
the server signals end-of-feed or the decremented budget is ≤ 0 (first
conjunct: halting at a page is equivalent to that condition; second
conjunct: otherwise the walk continues on the decremented budget).  With
budget 5 and server pages of 4 items the walk consumes 8 ≥ 5 items in
exactly 2 page fetches and halts; with no budget and `isEnded=true` after 3
pages of 2 items the walk processes exactly 6 items in 3 fetches and
halts. -/
theorem walk_budget_termination :
    (∀ (env : NetEnv) (a d : String) (fs : List String) (b : Int) (cur : String)
        (page : Page) (rest : List Page),
      (processPage env a d fs page.posts).2.2 = none →
      (((runPages env a d fs (some b) cur (page :: rest)).halted = true
        ∧ (runPages env a d fs (some b) cur (page :: rest)).requests = [⟨b, cur⟩])
        ↔ (page.isEnded = true ∨ b - page.posts.length ≤ 0)))
    ∧ (∀ (env : NetEnv) (a d : String) (fs : List String) (b : Int) (cur : String)
        (page : Page) (rest : List Page),
      (processPage env a d fs page.posts).2.2 = none →
      stopAfter page.isEnded (budgetAfter (some b) page.posts.length) = false →
      runPages env a d fs (some b) cur (page :: rest) =
        ⟨(runPages env a d (processPage env a d fs page.posts).1
            (some (b - page.posts.length)) page.lastId rest).fs,
         ⟨b, cur⟩ :: (runPages env a d (processPage env a d fs page.posts).1
            (some (b - page.posts.length)) page.lastId rest).requests,
         page.posts.length + (runPages env a d (processPage env a d fs page.posts).1
            (some (b - page.posts.length)) page.lastId rest).itemsProcessed,
         (processPage env a d fs page.posts).2.1
           + (runPages env a d (processPage env a d fs page.posts).1
              (some (b - page.posts.length)) page.lastId rest).assetCalls,
         (runPages env a d (processPage env a d fs page.posts).1
            (some (b - page.posts.length)) page.lastId rest).err,
         (runPages env a d (processPage env a d fs page.posts).1
            (some (b - page.posts.length)) page.lastId rest).halted⟩)
    ∧ ((runPages env0 "a" "d" [] (some 5) "" script5).itemsProcessed = 8
       ∧ 5 ≤ (runPages env0 "a" "d" [] (some 5) "" script5).itemsProcessed
       ∧ (runPages env0 "a" "d" [] (some 5) "" script5).requests.length = 2
       ∧ (runPages env0 "a" "d" [] (some 5) "" script5).halted = true
       ∧ (runPages env0 "a" "d" [] (some 5) "" script5).err = none)
    ∧ ((runPages env0 "a" "d" [] none "" script6).itemsProcessed = 6
       ∧ (runPages env0 "a" "d" [] none "" script6).requests.length = 3
       ∧ (runPages env0 "a" "d" [] none "" script6).halted = true
       ∧ (runPages env0 "a" "d" [] none "" script6).err = none) := by
  refine ⟨?_, ?_, by decide, by decide⟩
  · intro env a d fs b cur page rest he
    rcases hstop : stopAfter page.isEnded (budgetAfter (some b) page.posts.length) with _ | _
    case false =>
      rw [runPages_cons, hstop, stepResult_ok_go _ _ _ _ he]
      have hreq : (runPages env a d (processPage env a d fs page.posts).1
          (budgetAfter (some b) page.posts.length) page.lastId rest).requests ≠ []
          ∨ (runPages env a d (processPage env a d fs page.posts).1
          (budgetAfter (some b) page.posts.length) page.lastId rest).halted = false := by
        cases rest with
        | nil => exact Or.inr (runPages_nil_not_halted _ _ _ _ _ _)
        | cons q qs => exact Or.inl (runPages_cons_requests_ne_nil _ _ _ _ _ _ _ _)
      have hstop' : (page.isEnded || decide (b - (page.posts.length : Int) ≤ 0)) = false :=
        hstop
      have hrhs : ¬ (page.isEnded = true ∨ b - page.posts.length ≤ 0) := by
        intro hor
        rcases Bool.or_eq_false_iff.mp hstop' with ⟨hE, hB⟩
        rcases hor with hE' | hB'
        · rw [hE'] at hE
          cases hE
        · rw [decide_eq_true hB'] at hB
          cases hB
      refine iff_of_false ?_ hrhs
      rintro ⟨hh, hreqs⟩
      have hh' : (runPages env a d (processPage env a d fs page.posts).1
          (budgetAfter (some b) page.posts.length) page.lastId rest).halted = true := hh
      have htl : (runPages env a d (processPage env a d fs page.posts).1
          (budgetAfter (some b) page.posts.length) page.lastId rest).requests = [] := by
        injection hreqs
      rcases hreq with hne | hhf
      · exact hne htl
      · rw [hhf] at hh'
        cases hh'
    case true =>
      rw [runPages_cons, hstop, stepResult_ok_stop _ _ _ _ he]
      have hstop' : (page.isEnded || decide (b - (page.posts.length : Int) ≤ 0)) = true :=
        hstop
      have hrhs : page.isEnded = true ∨ b - page.posts.length ≤ 0 := by
        rcases Bool.or_eq_true_iff.mp hstop' with hE | hB
        · exact Or.inl hE
        · exact Or.inr (of_decide_eq_true hB)
      exact iff_of_true ⟨rfl, rfl⟩ hrhs
  · intro env a d fs b cur page rest he hstop
    rw [runPages_cons, hstop, stepResult_ok_go _ _ _ _ he]
    rfl

/-- Claim C3, witness: a page with `isEnded=true` halts the walk after a
single request carrying the budget as page size. -/
theorem walk_budget_termination_witness :
    (runPages env0 "a" "d" [] (some 7) "x" [⟨[simplePost 0], true, "c"⟩]).halted = true
    ∧ (runPages env0 "a" "d" [] (some 7) "x" [⟨[simplePost 0], true, "c"⟩]).requests
        = [⟨7, "x"⟩] :=
  (walk_budget_termination.1 env0 "a" "d" [] 7 "x" ⟨[simplePost 0], true, "c"⟩ []
    (by decide)).mpr (Or.inl rfl)

/-- Claim C4, counterexample: one item's asset-fetch failure aborts the
whole feed walk: with a failing item on page 1 and a second page available
(feed not ended, no budget), the walk raises, issues only one page request,
never reaches its `break`, and the page-2 item is never materialized —
contradicting the claim that per-item errors are caught at the orchestrator
boundary and do not halt processing of subsequent pages. -/
theorem item_error_counterexample :
    (runPages envFail "a" "d" [] none "" scriptC4).err = some "Could not download image"
    ∧ (runPages envFail "a" "d" [] none "" scriptC4).requests.length = 1
    ∧ (runPages envFail "a" "d" [] none "" scriptC4).halted = false
    ∧ dirPathOf "d" (simplePost 3) ∉ (runPages envFail "a" "d" [] none "" scriptC4).fs
    ∧ dirPathOf "d" (simplePost 2) ∈ (runPages envFail "a" "d" [] none "" scriptC4).fs
    ∧ scriptC4.length = 2
    ∧ scriptC4.map Page.isEnded = [false, true] :=
  ⟨by decide, by decide, by decide, by decide, by decide, by decide, by decide⟩

/-- Claim C4, amended: a failure extracting or materializing one item does
not stop its page-mates from being attempted (the pool runs every item of
the page, first conjunct is the page's full fold), but the error is NOT
caught at the orchestrator: `pool.map` re-raises it, the feed walk aborts
with that error after the current page, no further page is fetched, and the
run terminates; page-fetch failures likewise abort the walk. -/
theorem item_error_aborts_walk :
    (∀ (env : NetEnv) (a d : String) (fs : List String) (p : Post) (ps : List Post),
      processPage env a d fs (p :: ps)
        = ((processPage env a d (download_post env a d fs p).fs ps).1,
           (download_post env a d fs p).calls
             + (processPage env a d (download_post env a d fs p).fs ps).2.1,
           match (download_post env a d fs p).err with
           | some e => some e
           | none => (processPage env a d (download_post env a d fs p).fs ps).2.2))
    ∧ (∀ (env : NetEnv) (a d : String) (fs : List String) (remain : Option Int)
        (cur : String) (page : Page) (rest : List Page) (e : String),
      (processPage env a d fs page.posts).2.2 = some e →
      runPages env a d fs remain cur (page :: rest)
        = ⟨(processPage env a d fs page.posts).1, [⟨pageSizeOf remain, cur⟩],
           page.posts.length, (processPage env a d fs page.posts).2.1, some e, false⟩) := by
  refine ⟨fun env a d fs p ps => rfl, fun env a d fs remain cur page rest e he => ?_⟩
  rw [runPages_cons, stepResult_err _ _ _ _ _ e he]

/-- Claim C4, witness for the amended theorem: the concrete failing page
aborts the concrete two-page walk after one request. -/
theorem item_error_aborts_walk_witness :
    (processPage envFail "a" "d" [] pageC4a.posts).2.2 = some "Could not download image"
    ∧ runPages envFail "a" "d" [] none "" scriptC4
        = ⟨(processPage envFail "a" "d" [] pageC4a.posts).1, [⟨100, ""⟩], 2,
           (processPage envFail "a" "d" [] pageC4a.posts).2.1,
           some "Could not download image", false⟩ :=
  ⟨by decide,
   item_error_aborts_walk.2 envFail "a" "d" [] none "" pageC4a [pageC4b]
     "Could not download image" (by decide)⟩

/-- Claim C9: every page request of a budgeted walk carries the current
remaining budget as its page size (the issued sizes are a prefix of the
running budgets, and the first request carries exactly the initial budget),
while an unbudgeted walk always requests pages of size 100. -/
theorem page_size_rule :
    (∀ (env : NetEnv) (a d : String) (fs : List String) (cur : String)
        (script : List Page),
      ((runPages env a d fs none cur script).requests).map Request.pageSize
        = List.replicate (runPages env a d fs none cur script).requests.length 100)
    ∧ (∀ (env : NetEnv) (a d : String) (fs : List String) (b : Int) (cur : String)
        (script : List Page),
      ((runPages env a d fs (some b) cur script).requests).map Request.pageSize
        <+: runningBudget b (script.map (fun pg => pg.posts.length)))
    ∧ (∀ (env : NetEnv) (a d : String) (fs : List String) (b : Int) (cur : String)
        (page : Page) (rest : List Page),
      ((runPages env a d fs (some b) cur (page :: rest)).requests).head?
        = some ⟨b, cur⟩) := by
  refine ⟨fun env a d fs cur script => ?_, fun env a d fs b cur script => ?_,
    fun env a d fs b cur page rest => ?_⟩
  · induction script generalizing fs cur with
    | nil => rfl
    | cons page rest ih =>
      rcases he : (processPage env a d fs page.posts).2.2 with _ | e
      case some =>
        rw [runPages_cons, stepResult_err _ _ _ _ _ e he]
        rfl
      case none =>
        rcases hstop : stopAfter page.isEnded (budgetAfter none page.posts.length) with _ | _
        case true =>
          rw [runPages_cons, hstop, stepResult_ok_stop _ _ _ _ he]
          rfl
        case false =>
          rw [runPages_cons, hstop, stepResult_ok_go _ _ _ _ he]
          simp only [List.map_cons, List.length_cons, List.replicate_succ,
            List.cons.injEq]
          exact ⟨rfl, ih _ _⟩
  · induction script generalizing fs b cur with
    | nil => exact List.nil_prefix
    | cons page rest ih =>
      rcases he : (processPage env a d fs page.posts).2.2 with _ | e
      case some =>
        rw [runPages_cons, stepResult_err _ _ _ _ _ e he]
        exact ⟨_, rfl⟩
      case none =>
        rcases hstop : stopAfter page.isEnded (budgetAfter (some b) page.posts.length) with _ | _
        case true =>
          rw [runPages_cons, hstop, stepResult_ok_stop _ _ _ _ he]
          exact ⟨_, rfl⟩
        case false =>
          rw [runPages_cons, hstop, stepResult_ok_go _ _ _ _ he]
          have hba : budgetAfter (some b) page.posts.length
              = some (b - (page.posts.length : Int)) := rfl
          rw [hba]
          obtain ⟨t, ht⟩ := ih (processPage env a d fs page.posts).1
            (b - page.posts.length) page.lastId
          refine ⟨t, ?_⟩
          simp only [List.map_cons, runningBudget]
          rw [List.cons_append]
          exact congrArg (List.cons _) ht
  · rcases he : (processPage env a d fs page.posts).2.2 with _ | e
    case some =>
      rw [runPages_cons, stepResult_err _ _ _ _ _ e he]
      rfl
    case none =>
      rcases hstop : stopAfter page.isEnded (budgetAfter (some b) page.posts.length) with _ | _
      case true =>
        rw [runPages_cons, hstop, stepResult_ok_stop _ _ _ _ he]
        rfl
      case false =>
        rw [runPages_cons, hstop, stepResult_ok_go _ _ _ _ he]
        rfl

end DW
